import Mathlib

/-!
Verification of the NX3 importer/exporter (`src/import_nx3.py`).

The file shallowly embeds the data model and the operations of the addon:
the archive unpacking and role classification of `ImportNX3.execute`, the
metadata loading and property-application logic, the numeric coercion of
`ImportNX3.apply_properties`, and the export-side staging pipeline of
`ExportNX3.execute` (duplication, modifier baking, mesh joining, rename,
cleanup) over an explicit scene-graph state.  Host (Blender) behaviour that
the code relies on — name auto-disambiguation, data-block copying, `join`
semantics — is modelled explicitly and commented where it is modelled.
-/

namespace NX3

/-! ### ASCII string helpers (models of the Python `str` operations used) -/

/-- Lower-case an ASCII letter; other characters unchanged.
Models Python `str.lower` for the ASCII file names handled here. -/
def lowerChar (c : Char) : Char :=
  if 65 ≤ c.toNat ∧ c.toNat ≤ 90 then Char.ofNat (c.toNat + 32) else c

/-- `s.lower()` (ASCII model). -/
def lowerStr (s : String) : String := String.mk (s.data.map lowerChar)

/-- `s.endswith(suffix)`: the last `suffix.length` characters equal `suffix`. -/
def endsWithStr (s suffix : String) : Bool :=
  decide (suffix.data.length ≤ s.data.length) &&
    s.data.drop (s.data.length - suffix.data.length) == suffix.data

/-- `name.split('.')[0]`: the characters before the first `'.'`
(the whole name when there is no `'.'`). -/
def firstComponent (s : String) : String :=
  String.mk (s.data.takeWhile (fun c => c ≠ '.'))

/-- Python whitespace characters recognised by `int()` / `float()` stripping. -/
def isPySpace (c : Char) : Bool := c = ' ' ∨ c = '\t' ∨ c = '\n' ∨ c = '\r'

/-- Strip leading and trailing whitespace (model of the stripping that
Python's numeric constructors perform on their argument). -/
def pyStrip (cs : List Char) : List Char :=
  ((cs.dropWhile isPySpace).reverse.dropWhile isPySpace).reverse

/-- Decimal digit value of a list of digit characters; `none` if the list is
empty or contains a non-digit. -/
def digitsToNat : List Char → Option Nat
  | [] => none
  | cs => cs.foldl (fun acc c => match acc with
      | none => none
      | some n => if c.isDigit then some (n * 10 + (c.toNat - 48)) else none)
      (some 0)

/-- Model of Python `int(s)`: optional sign, then decimal digits
(underscores, bases etc. are not used by the repository's data). -/
def pythonIntParse (s : String) : Option Int :=
  match pyStrip s.data with
  | '+' :: rest => (digitsToNat rest).map Int.ofNat
  | '-' :: rest => (digitsToNat rest).map (fun n => -(n : Int))
  | cs => (digitsToNat cs).map Int.ofNat

/-- Model of Python `float(s)` restricted to plain decimal literals
(optional sign, digits, one optional `'.'`): the only shapes the coercion
path can feed it.  Exponents / `inf` / `nan` are not modelled. -/
def pythonFloatParse (s : String) : Option Rat :=
  let core : List Char → Option Rat := fun cs =>
    match cs.splitOn '.' with
    | [a] => (digitsToNat a).map (fun n => (n : Rat))
    | [a, b] =>
      if a = [] ∧ b = [] then none
      else
        let ai := if a = [] then some 0 else digitsToNat a
        let bi := if b = [] then some 0 else digitsToNat b
        match ai, bi with
        | some n, some f => some ((n : Rat) + (f : Rat) / ((10 : Rat) ^ b.length))
        | _, _ => none
    | _ => none
  match pyStrip s.data with
  | '+' :: rest => core rest
  | '-' :: rest => (core rest).map Neg.neg
  | cs => core cs

/-! ### JSON values -/

/-- A parsed JSON value (the result of `json.load`).  Floats are modelled as
rationals. -/
inductive JValue where
  | str (s : String)
  | int (n : Int)
  | float (q : Rat)
  | bool (b : Bool)
  | null
  | arr (elems : List JValue)
  | obj (entries : List (String × JValue))

/-- `isinstance(v, dict)`. -/
def JValue.isObj : JValue → Bool
  | .obj _ => true
  | _ => false

/-- Python truthiness of a JSON value (used by `if properties_data`). -/
def jvTruthy : JValue → Bool
  | .str s => s.data ≠ []
  | .int n => n ≠ 0
  | .float q => q ≠ 0
  | .bool b => b
  | .null => false
  | .arr l => !l.isEmpty
  | .obj l => !l.isEmpty

/-- Look a key up in an association list (Python `d[k]` / `k in d`). -/
def lookupKey (l : List (String × JValue)) (k : String) : Option JValue :=
  (l.find? (fun kv => kv.1 == k)).map (fun kv => kv.2)

/-- Upsert a key in an association list: replace the value in place when the
key exists, append otherwise (Python `d[k] = v`). -/
def setKey (l : List (String × JValue)) (k : String) (v : JValue) :
    List (String × JValue) :=
  if l.any (fun kv => kv.1 == k) then
    l.map (fun kv => if kv.1 == k then (k, v) else kv)
  else l ++ [(k, v)]

/-! ### Scene objects -/

inductive ObjType where
  | MESH
  | OTHER
deriving DecidableEq

/-- A scene object.  `props` are its custom properties; `rnaUI` models the
`'_RNA_UI'` side table (a custom property in Blender, held as a separate
field here because every code path special-cases it); `dataRef` points into
the scene's data-block store; `modifiers` are the object's modifier names. -/
structure BObject where
  name : String
  objType : ObjType
  dataRef : Option Nat := none
  modifiers : List String := []
  props : List (String × JValue) := []
  rnaUI : Option (List (String × JValue)) := none

/-! ### Import: numeric coercion (`ImportNX3.apply_properties`, lines 42-51) -/

/-- The string→number coercion of `apply_properties`: strings containing a
`'.'` are float-parsed, other strings int-parsed, and the original string is
kept when parsing fails; non-strings pass through. -/
def coerce (v : JValue) : JValue :=
  match v with
  | .str s =>
    if s.data.contains '.' then
      match pythonFloatParse s with
      | some q => .float q
      | none => .str s
    else
      match pythonIntParse s with
      | some n => .int n
      | none => .str s
  | _ => v

/-- The `_RNA_UI` descriptor written for a property (execute, lines 148-152
and 167-171): `{"description": "", "default": value,
"is_overridable_library": True}`. -/
def uiDescriptor (v : JValue) : JValue :=
  .obj [("description", .str ""), ("default", v),
        ("is_overridable_library", .bool true)]

/-- Apply one key/value pair to an object the way `execute` does it
(lines 141-152 / 164-171): ensure `_RNA_UI` exists, set the property to the
value as-is, and write the UI descriptor entry for the key. -/
def applyPropEntry (obj : BObject) (key : String) (value : JValue) : BObject :=
  let ui := obj.rnaUI.getD []
  { obj with
    props := setKey obj.props key value,
    rnaUI := some (setKey ui key (uiDescriptor value)) }

/-- Apply a whole property set to one object, pair by pair. -/
def applyPropSet (ps : List (String × JValue)) (obj : BObject) : BObject :=
  ps.foldl (fun o kv => applyPropEntry o kv.1 kv.2) obj

/-! ### Import: per-object matching (`ImportNX3.execute`, lines 124-156) -/

/-- The name match of the nested case (lines 126-135): exact object name
first, then the name truncated at its first `'.'` (`obj_name.split('.')[0]`).
`none` when neither key is present. -/
def matchPropSet (pd : List (String × JValue)) (objName : String) :
    Option JValue :=
  match lookupKey pd objName with
  | some v => some v
  | none => lookupKey pd (firstComponent objName)

/-- Nested-case treatment of one object.  `none` signals that the matched
value was not a mapping, in which case `.items()` raises and the surrounding
`try` aborts the whole application pass (line 176). -/
def applyNestedObj (pd : List (String × JValue)) (obj : BObject) :
    Option BObject :=
  match matchPropSet pd obj.name with
  | none => some obj
  | some (.obj ps) => some (applyPropSet ps obj)
  | some _ => none

/-- Nested-case loop over the new objects.  When one object's matched value
is not a mapping, that object and all later objects are left unchanged
(the exception is caught outside the loop). -/
def applyNestedAll (pd : List (String × JValue)) :
    List BObject → List BObject
  | [] => []
  | o :: rest =>
    match applyNestedObj pd o with
    | some o' => o' :: applyNestedAll pd rest
    | none => o :: rest

/-- Flat-case treatment of one object (lines 160-174): every pair is applied
to a mesh object, other objects are untouched. -/
def flatApplyObj (entries : List (String × JValue)) (obj : BObject) :
    BObject :=
  if obj.objType = .MESH then applyPropSet entries obj else obj

/-- Flat-case loop over the new objects. -/
def applyFlat (entries : List (String × JValue)) (objs : List BObject) :
    List BObject :=
  objs.map (flatApplyObj entries)

/-- The shape classification of line 119
(`has_nested_dicts = any(isinstance(v, dict) for v in ...)`). -/
inductive PropShape where
  | nested
  | flat
deriving DecidableEq

def classifyShape (entries : List (String × JValue)) : PropShape :=
  if entries.any (fun kv => kv.2.isObj) then .nested else .flat

/-- The whole property-application step of `execute` (lines 115-174):
skipped when `properties_data` is falsy or there are no new objects;
non-dict `properties_data` does nothing; otherwise nested or flat by
`classifyShape`. -/
def applyPropertiesData (pd : Option JValue) (objs : List BObject) :
    List BObject :=
  match pd with
  | none => objs
  | some v =>
    if !jvTruthy v || objs.isEmpty then objs
    else
      match v with
      | .obj entries =>
        match classifyShape entries with
        | .nested => applyNestedAll entries objs
        | .flat => applyFlat entries objs
      | _ => objs

/-! ### Import: archive handling (`ImportNX3.execute`, lines 72-91) -/

/-- The error taxonomy of the spec.  The code reports errors through
`self.report` and `{'CANCELLED'}`; each report site is mapped to the
corresponding constructor. -/
inductive NX3Error where
  | CorruptArchive
  | ArchiveTooLarge
  | MissingModel
  | InvalidMetadata
  | NothingSelected
  | DestinationBusy
  | PropertyApplyFailed
deriving DecidableEq

/-- A zip container as the code observes it: whether `zipfile.ZipFile`
accepts it, and its top-level entries with their declared uncompressed
sizes. -/
structure ZipArchive where
  wellFormed : Bool
  entries : List (String × Nat)

/-- Summed declared uncompressed size of the entries. -/
def sumSizes (a : ZipArchive) : Nat := (a.entries.map (fun e => e.2)).sum

/-- Modelled from the spec: the default size cap (5 GiB) that §4.1 says
`unpack` enforces.  No such constant exists in the code. -/
def sizeCapBytes : Nat := 5 * 2 ^ 30

/-- Lines 72-78: `extractall` into the temp dir, guarded only by
`BadZipFile`.  Every entry of a well-formed archive is extracted; there is
no size check of any kind. -/
def extractAll (a : ZipArchive) : Except NX3Error (List (String × Nat)) :=
  if a.wellFormed then .ok a.entries else .error .CorruptArchive

/-- One iteration of the classification loop of lines 82-91: the
`if`/`elif` chain on the lower-cased file name, overwriting the matching
role. -/
def classifyStep (acc : Option String × Option String × Option String)
    (nm : String) : Option String × Option String × Option String :=
  let lower := lowerStr nm
  if endsWithStr lower ".glb" then (some nm, acc.2.1, acc.2.2)
  else if endsWithStr lower ".txt" then (acc.1, some nm, acc.2.2)
  else if endsWithStr lower ".safetensor" then (acc.1, acc.2.1, some nm)
  else acc

/-- Lines 80-91: scan the extracted names, classifying by case-insensitive
suffix into (glb, txt, safetensor); a later match overwrites an earlier
one.  The code stores the joined path; the model keeps the entry name. -/
def findFiles (names : List String) :
    Option String × Option String × Option String :=
  names.foldl classifyStep (none, none, none)

/-- The outcome of `json.load` on the metadata file: a value, or an
exception (malformed JSON, unreadable file, ...). -/
inductive ParseResult where
  | ok (v : JValue)
  | malformed

/-- Lines 93-102: load `properties`.  An exception yields a warning and no
properties; a top-level value that is not a dict (or a dict without a
`"properties"` key) silently yields no properties.  The second component
records whether the `'WARNING'` report fired. -/
def loadProperties : ParseResult → Option JValue × Bool
  | .malformed => (none, true)
  | .ok v =>
    match v with
    | .obj entries => (lookupKey entries "properties", false)
    | _ => (none, false)

/-- Replace, in traversal order, the objects whose name is not in `keep`
by the next element of `repl` (used to put the mutated new objects back at
their positions in the full object list). -/
def patchByNames : List BObject → List String → List BObject → List BObject
  | [], _, _ => []
  | o :: rest, keep, repl =>
    if o.name ∈ keep then o :: patchByNames rest keep repl
    else
      match repl with
      | r :: rs => r :: patchByNames rest keep rs
      | [] => o :: patchByNames rest keep []

/-- Input of one import run: the archive and the `json.load` outcome for
the metadata file (consulted only when a `.txt` entry exists). -/
structure ImportInput where
  archive : ZipArchive
  txtParse : ParseResult

/-- `ImportNX3.execute`.  `scene` is the pre-existing object list,
`decoded` the objects the external glTF codec adds; new objects are those
whose name was not present before the import, exactly as line 112 computes
them.  The result carries the final object list and whether a
properties-loading warning was reported. -/
def importExecute (inp : ImportInput) (scene decoded : List BObject) :
    Except NX3Error (List BObject × Bool) :=
  match extractAll inp.archive with
  | .error e => .error e
  | .ok entries =>
    let roles := findFiles (entries.map (fun e => e.1))
    let pdw : Option JValue × Bool :=
      match roles.2.1 with
      | some _ => loadProperties inp.txtParse
      | none => (none, false)
    match roles.1 with
    | none => .error .MissingModel
    | some _ =>
      let all := scene ++ decoded
      let initialNames := scene.map (fun o => o.name)
      let newObjs := all.filter (fun o => !(initialNames.contains o.name))
      let mutated := applyPropertiesData pdw.1 newObjs
      .ok (patchByNames all initialNames mutated, pdw.2)

/-! ### Spec-side definitions used to compare code against claim text -/

/-- Modelled from the spec's words (§4.4 Rule 2b): the object name with the
trailing disambiguation suffix stripped by removing everything from the
LAST separator character onward; the name itself when it has no
separator. -/
def stripLastSuffix (s : String) : String :=
  match s.data.reverse.dropWhile (fun c => c ≠ '.') with
  | [] => s
  | _ :: stemRev => String.mk stemRev.reverse

/-- The last entry of `names` whose lower-cased form ends with `suffix`
(used to characterise `findFiles`: a later match overwrites an earlier
one). -/
def lastMatch (suffix : String) : List String → Option String
  | [] => none
  | n :: rest =>
    (lastMatch suffix rest).or
      (if endsWithStr (lowerStr n) suffix then some n else none)

/-! ### Export: scene-graph state

The export operator mutates Blender's scene in place.  The model makes that
state explicit: an ordered object list plus a data-block store addressed by
numeric ids (`bpy.data` object names are unique; data blocks are shared by
reference, which the store captures so that "copy the data block" and
"mutate the data block" are distinguishable operations). -/

/-- A mesh data block: abstract geometry content plus the record of which
modifiers have been baked into it. -/
structure DataVal where
  geom : Nat
  bakedMods : List String
deriving DecidableEq

structure Scene where
  objs : List BObject
  store : List (Nat × DataVal)
  nextId : Nat

def sceneNames (s : Scene) : List String := s.objs.map (fun o => o.name)

def lookupObj (s : Scene) (nm : String) : Option BObject :=
  s.objs.find? (fun o => o.name == nm)

def lookupData (store : List (Nat × DataVal)) (i : Nat) : Option DataVal :=
  (store.find? (fun p => p.1 == i)).map (fun p => p.2)

def updateObj (s : Scene) (nm : String) (f : BObject → BObject) : Scene :=
  { s with objs := s.objs.map (fun o => if o.name == nm then f o else o) }

def updateData (s : Scene) (i : Nat) (f : DataVal → DataVal) : Scene :=
  { s with store := s.store.map (fun p => if p.1 == i then (p.1, f p.2) else p) }

/-- `bpy.data.objects.remove(obj, do_unlink=True)`: the object disappears
from the scene (names are unique, so removal by name is removal of the
object). -/
def removeObject (s : Scene) (nm : String) : Scene :=
  { s with objs := s.objs.filter (fun o => o.name ≠ nm) }

/-- The data value an object's `dataRef` points at. -/
def dataValOf (s : Scene) (nm : String) : Option DataVal :=
  match lookupObj s nm with
  | none => none
  | some o =>
    match o.dataRef with
    | none => none
    | some r => lookupData s.store r

/-! #### Host name disambiguation

Blender assigns every object a scene-unique name: a requested name that is
already taken gets a `.001`-style numeric suffix.  The pipeline depends
only on the assigned name being fresh (spec §4.5 step 1: "the pipeline must
use whatever name the host actually assigned"). -/

def digitChar (n : Nat) : Char :=
  match n with
  | 0 => '0' | 1 => '1' | 2 => '2' | 3 => '3' | 4 => '4'
  | 5 => '5' | 6 => '6' | 7 => '7' | 8 => '8' | _ => '9'

def natCharsAux : Nat → Nat → List Char
  | 0, _ => []
  | fuel + 1, n =>
    if n < 10 then [digitChar n]
    else natCharsAux fuel (n / 10) ++ [digitChar (n % 10)]

def natChars (n : Nat) : List Char := natCharsAux (n + 1) n

/-- Zero-padded three-digit counter, Blender's `.001` suffix style. -/
def pad3 (n : Nat) : String :=
  if n < 10 then String.mk ['0', '0', digitChar n]
  else if n < 100 then String.mk ['0', digitChar (n / 10), digitChar (n % 10)]
  else String.mk (natChars n)

def candidateNames (base : String) (n : Nat) : List String :=
  (List.range n).map (fun i => base ++ "." ++ pad3 (i + 1))

def maxLen (l : List String) : Nat :=
  l.foldr (fun s m => max s.data.length m) 0

/-- A name longer than every taken name (fallback that keeps the host model
total; unreachable for the numbered candidates in actual runs). -/
def longFresh (base : String) (taken : List String) : String :=
  base ++ "." ++ String.mk (List.replicate (maxLen taken + 1) '0')

/-- The host's name assignment: the requested name when free, else the
first free numbered candidate. -/
def freshName (base : String) (taken : List String) : String :=
  if taken.contains base then
    match (candidateNames base (taken.length + 1)).find?
        (fun c => !(taken.contains c)) with
    | some c => c
    | none => longFresh base taken
  else base

/-! #### Path helpers (`os.path.basename` / `os.path.splitext`) -/

/-- POSIX `os.path.basename`: the part after the last `'/'`. -/
def basename (s : String) : String :=
  String.mk (s.data.reverse.takeWhile (fun c => c ≠ '/')).reverse

/-- The stem of `os.path.splitext`: strip the last-dot extension, except
that a dots-only prefix (leading-dot file names) has no extension. -/
def splitextBase (s : String) : String :=
  let rev := s.data.reverse
  let extRev := rev.takeWhile (fun c => c ≠ '.')
  match rev.drop extRev.length with
  | [] => s
  | _ :: stemRev =>
    if stemRev.all (fun c => c = '.') then s
    else String.mk stemRev.reverse

/-! ### Export: the staging pipeline (`ExportNX3.execute`) -/

/-- Lines 268-288, one iteration: `obj.copy()` (fresh host-assigned name),
`new_obj.data = obj.data.copy()` (fresh data-block id holding a copy of the
value), link into the scene. -/
def dupObject (s : Scene) (o : BObject) : Scene × String :=
  let nm := freshName o.name (sceneNames s)
  match o.dataRef with
  | some i =>
    let dv := (lookupData s.store i).getD ⟨0, []⟩
    ({ objs := s.objs ++ [{ o with name := nm, dataRef := some s.nextId }],
       store := s.store ++ [(s.nextId, dv)],
       nextId := s.nextId + 1 }, nm)
  | none =>
    ({ objs := s.objs ++ [{ o with name := nm }],
       store := s.store, nextId := s.nextId }, nm)

/-- Lines 281-282: `modifier_apply` for every modifier of the duplicate —
the modifiers are baked into its (freshly copied) data block and removed
from the object. -/
def bakeModifiers (s : Scene) (nm : String) : Scene :=
  match lookupObj s nm with
  | none => s
  | some o =>
    let s' :=
      match o.dataRef with
      | some r => updateData s r (fun dv =>
          { dv with bakedMods := dv.bakedMods ++ o.modifiers })
      | none => s
    updateObj s' nm (fun ob => { ob with modifiers := [] })

/-- One iteration of the duplication loop: duplicate the selected object,
bake its modifiers when it is a mesh and baking was requested, and append
the host-assigned duplicate name to the tracked list. -/
def duplicateStep (applyMods : Bool) (acc : Scene × List String)
    (nm : String) : Scene × List String :=
  match lookupObj acc.1 nm with
  | none => acc
  | some o =>
    let d := dupObject acc.1 o
    let s'' :=
      if o.objType = .MESH ∧ applyMods then bakeModifiers d.1 d.2
      else d.1
    (s'', acc.2 ++ [d.2])

/-- The whole duplication loop (lines 268-288): returns the scene and the
tracked `duplicated_object_names` list. -/
def duplicateAll (s : Scene) (sel : List String) (applyMods : Bool) :
    Scene × List String :=
  sel.foldl (duplicateStep applyMods) (s, [])

/-- `bpy.ops.object.join()` with `names` selected and `active` active:
the selected meshes' geometry is merged into the active object's data
block and the non-active selected objects are removed from the scene. -/
def joinObjects (s : Scene) (names : List String) (active : String) : Scene :=
  let total :=
    (names.map (fun n => ((dataValOf s n).getD ⟨0, []⟩).geom)).sum
  let s' :=
    match lookupObj s active with
    | some o =>
      match o.dataRef with
      | some r => updateData s r (fun dv => { dv with geom := total })
      | none => s
    | none => s
  { s' with
    objs := s'.objs.filter (fun o => o.name ∉ names ∨ o.name = active) }

/-- `merged_obj.name = base` (line 314): the host assigns `base` if no
other object holds it, else a disambiguated name.  Returns the scene and
the actually assigned name (the code reads `merged_obj.name` afterwards). -/
def renameObject (s : Scene) (old newBase : String) : Scene × String :=
  let others := (sceneNames s).filter (fun n => n ≠ old)
  let assigned := freshName newBase others
  (updateObj s old (fun o => { o with name := assigned }), assigned)

/-- Whether the object of that name in `s` is a mesh (line 295-298's
`bpy.data.objects[name].type == 'MESH'`). -/
def isMeshName (s : Scene) (n : String) : Bool :=
  match lookupObj s n with
  | some o => o.objType = .MESH
  | none => false

/-- The guarded removal used by lines 317-319 and 422-424:
`if name in bpy.data.objects: bpy.data.objects.remove(...)`. -/
def removeByName (sc : Scene) (n : String) : Scene :=
  if (sceneNames sc).contains n then removeObject sc n else sc

/-- Lines 293-350: the combine-meshes branch.  Computes the mesh duplicates,
joins them into the first, renames the survivor to the base file name,
removes the consumed duplicates (already gone after `join`; the guarded
loop of lines 317-319 is kept), and rewrites the tracked name list
(lines 321-333).  Returns the scene and the new tracked list. -/
def combineStep (s : Scene) (dupNames : List String) (base : String) :
    Scene × List String :=
  let mesh_names := dupNames.filter (isMeshName s)
  match mesh_names with
  | [] => (s, dupNames)
  | first :: others =>
    let s1 := joinObjects s mesh_names first
    let r := renameObject s1 first base
    let s2 := others.foldl removeByName r.1
    let updated :=
      dupNames.foldl
        (fun acc d =>
          if d ∈ others then acc
          else if d = first then acc ++ [r.2]
          else acc ++ [d])
        []
    (s2, updated)

/-- One export run's inputs: the operator options and the environment's
failure switches (existing destination file, `os.remove` outcome,
`bpy.ops.export_scene.gltf` outcome, `shutil.move` outcome). -/
structure ExportInput where
  filepath : String
  apply_modifiers : Bool
  combine_meshes : Bool
  fileExistsAtDest : Bool
  removeFails : Bool
  encodeFails : Bool
  moveFails : Bool

/-- How the operator run ended: normal return value, or an uncaught
exception (`raised`). -/
inductive ExecResult where
  | FINISHED
  | CANCELLED
  | raised
deriving DecidableEq

/-- What sits at the destination path afterwards. -/
inductive DestFile where
  | absent
  | oldFile
  | newFile
deriving DecidableEq

structure ExportOutcome where
  result : ExecResult
  scene : Scene
  dest : DestFile
  dupNames : List String

/-- `ExportNX3.execute` (lines 233-427).  `sel` is
`context.selected_objects`, by name.  Selection/active-state bookkeeping is
modelled implicitly by operating on the tracked names directly. -/
def exportExecute (inp : ExportInput) (scene : Scene) (sel : List String) :
    ExportOutcome :=
  let dest0 : DestFile := if inp.fileExistsAtDest then .oldFile else .absent
  -- lines 239-248: remove an existing destination file, or cancel
  if inp.fileExistsAtDest && inp.removeFails then
    ⟨.CANCELLED, scene, dest0, []⟩
  else
    let export_path :=
      if endsWithStr (lowerStr inp.filepath) ".nx3" then inp.filepath
      else inp.filepath ++ ".nx3"
    let base_filename := splitextBase (basename export_path)
    -- lines 254-257: empty selection cancels (the destination file is
    -- already gone at this point)
    if sel.isEmpty then ⟨.CANCELLED, scene, .absent, []⟩
    else
      let d := duplicateAll scene sel inp.apply_modifiers
      let c :=
        if inp.combine_meshes then combineStep d.1 d.2 base_filename
        else (d.1, d.2)
      -- lines 366-371: glTF export; an exception propagates, skipping
      -- every later line including the cleanup loop
      if inp.encodeFails then ⟨.raised, c.1, .absent, c.2⟩
      -- lines 412-417: shutil.move; failure returns CANCELLED before the
      -- cleanup loop runs
      else if inp.moveFails then ⟨.CANCELLED, c.1, .absent, c.2⟩
      else
        -- lines 422-424: remove the tracked duplicates by name
        ⟨.FINISHED, c.2.foldl removeByName c.1, .newFile, c.2⟩

/-- Scene well-formedness used by the preservation theorems: every stored
data-block id is below the allocation counter, and every object's data
reference resolves. -/
def Scene.WF (s : Scene) : Prop :=
  (∀ p ∈ s.store, p.1 < s.nextId) ∧
  (∀ o ∈ s.objs, ∀ r ∈ o.dataRef.toList, (lookupData s.store r).isSome = true)

/-- Modelled from the spec's words (§4.5 step 2): the tracked list after a
merge — the merged name in place of the first mesh, the other meshes
dropped, the non-mesh names kept, original relative order preserved. -/
def specMergeRewrite (isMesh : String → Bool) :
    List String → String → List String
  | [], _ => []
  | d :: rest, merged =>
    if isMesh d then merged :: rest.filter (fun x => !(isMesh x))
    else d :: specMergeRewrite isMesh rest merged

/-- The per-name rewrite the tracked-list loop of lines 324-332 performs:
consumed meshes contribute nothing, the survivor contributes the merged
name, anything else contributes itself. -/
def mergeG (others : List String) (first merged : String) (d : String) :
    List String :=
  if d ∈ others then [] else if d = first then [merged] else [d]

/-- Invariant relating the scene at export start (`s₀`) to a later pipeline
state `s`: the original objects sit unchanged as a prefix of the object
list, everything added carries a scene-name that was fresh at start and
data-block ids allocated after start, and the original store is an
unchanged prefix. -/
structure ExInv (s₀ s : Scene) : Prop where
  objsEq : ∃ rest, s.objs = s₀.objs ++ rest ∧
    ∀ o ∈ rest, o.name ∉ sceneNames s₀ ∧ ∀ r ∈ o.dataRef.toList, s₀.nextId ≤ r
  storeEq : ∃ srest, s.store = s₀.store ++ srest ∧ ∀ p ∈ srest, s₀.nextId ≤ p.1
  nidLe : s₀.nextId ≤ s.nextId

/-! ### Concrete fixtures (used by witnesses and counterexamples) -/

/-- A freshly imported mesh object with no properties. -/
def cubeNew : BObject := { name := "Cube", objType := .MESH }

/-- A freshly imported non-mesh object. -/
def lampNew : BObject := { name := "Lamp", objType := .OTHER }

/-- A well-formed archive declaring 6 GiB of uncompressed content. -/
def bigNX3 : ZipArchive := ⟨true, [("model.glb", 6 * 2 ^ 30)]⟩

/-- An import whose metadata file fails `json.load`. -/
def impMalformed : ImportInput :=
  ⟨⟨true, [("model.glb", 10), ("nx3.txt", 5)]⟩, .malformed⟩

/-- An import whose metadata parses to a top-level non-mapping. -/
def impNonMapping : ImportInput :=
  ⟨⟨true, [("model.glb", 10), ("nx3.txt", 5)]⟩, .ok (.arr [.int 1])⟩

/-- Nested properties keyed by a name that itself contains a separator. -/
def cexPdAB : List (String × JValue) := [("A.B", .obj [("k", .int 1)])]

/-- An object whose name carries a disambiguation suffix on a dotted base. -/
def cexObjAB : BObject := { name := "A.B.001", objType := .MESH }

/-- Nested properties for `"Cube"` holding a numeric-looking string. -/
def cexPdCube : List (String × JValue) := [("Cube", .obj [("a", .str "42")])]

def cexObjCube : BObject := { name := "Cube", objType := .MESH }

/-- A mesh scene object with one modifier, data block `r`. -/
def mkMesh (nm : String) (r : Nat) : BObject :=
  { name := nm, objType := .MESH, dataRef := some r,
    modifiers := ["Subsurf"] }

/-- A non-mesh scene object. -/
def lampObj : BObject := { name := "L", objType := .OTHER, dataRef := some 2 }

/-- A scene holding a single mesh `"Cube"`. -/
def cubeScene : Scene := ⟨[mkMesh "Cube" 0], [(0, ⟨8, []⟩)], 1⟩

/-- A scene with three meshes. -/
def threeMeshScene : Scene :=
  ⟨[mkMesh "A" 0, mkMesh "B" 1, mkMesh "C" 2],
   [(0, ⟨4, []⟩), (1, ⟨5, []⟩), (2, ⟨6, []⟩)], 3⟩

/-- A scene with two meshes and one non-mesh. -/
def mixedScene : Scene :=
  ⟨[mkMesh "A" 0, mkMesh "B" 1, lampObj],
   [(0, ⟨4, []⟩), (1, ⟨5, []⟩), (2, ⟨9, []⟩)], 3⟩

/-- Export where `shutil.move` fails. -/
def expMoveFail : ExportInput := ⟨"/tmp/out.nx3", true, true, false, false, false, true⟩

/-- Export where the glTF encode raises. -/
def expEncodeFail : ExportInput := ⟨"/tmp/model.nx3", true, true, false, false, true, false⟩

/-- Export over an existing destination file where everything succeeds. -/
def expOK : ExportInput := ⟨"/tmp/out.nx3", true, true, true, false, false, false⟩

/-- Export over an existing destination file where the final move fails. -/
def expReplaceFail : ExportInput := ⟨"/tmp/out.nx3", true, true, true, false, false, true⟩

/-- The three-mesh scene right after the duplication stage. -/
def dupSceneA : Scene := (duplicateAll threeMeshScene ["A", "B", "C"] true).1

/-! ## Lemmas about property lookup and upsert -/

theorem lookupKey_cons_pos {hd : String × JValue} {tl : List (String × JValue)}
    {k : String} (h : (hd.1 == k) = true) :
    lookupKey (hd :: tl) k = some hd.2 := by
  simp [lookupKey, List.find?_cons, h]

theorem lookupKey_cons_neg {hd : String × JValue} {tl : List (String × JValue)}
    {k : String} (h : (hd.1 == k) = false) :
    lookupKey (hd :: tl) k = lookupKey tl k := by
  simp [lookupKey, List.find?_cons, h]

theorem lookupKey_of_any_eq_false {l : List (String × JValue)} {k : String}
    (h : l.any (fun kv => kv.1 == k) = false) : lookupKey l k = none := by
  induction l with
  | nil => rfl
  | cons hd tl ih =>
    simp only [List.any_cons, Bool.or_eq_false_iff] at h
    rw [lookupKey_cons_neg h.1]
    exact ih h.2

theorem lookupKey_append (l₁ l₂ : List (String × JValue)) (k : String) :
    lookupKey (l₁ ++ l₂) k =
      match lookupKey l₁ k with
      | some v => some v
      | none => lookupKey l₂ k := by
  induction l₁ with
  | nil => rfl
  | cons hd tl ih =>
    cases h : (hd.1 == k) with
    | true =>
      rw [List.cons_append, lookupKey_cons_pos h, lookupKey_cons_pos h]
    | false =>
      rw [List.cons_append, lookupKey_cons_neg h, lookupKey_cons_neg h, ih]

theorem find?_map_set_self (k : String) (v : JValue)
    (l : List (String × JValue)) :
    lookupKey (l.map (fun kv => if kv.1 == k then (k, v) else kv)) k =
      if l.any (fun kv => kv.1 == k) then some v else none := by
  induction l with
  | nil => rfl
  | cons hd tl ih =>
    cases hh : (hd.1 == k) with
    | true =>
      simp only [List.map_cons, if_pos hh, List.any_cons, hh, Bool.true_or,
        if_pos]
      exact lookupKey_cons_pos (by simp)
    | false =>
      simp only [List.map_cons, hh, Bool.false_eq_true, if_false,
        List.any_cons, Bool.false_or]
      rw [lookupKey_cons_neg hh]
      exact ih

theorem find?_map_set_ne {k k' : String} (v : JValue) (hne : k' ≠ k)
    (l : List (String × JValue)) :
    lookupKey (l.map (fun kv => if kv.1 == k then (k, v) else kv)) k' =
      lookupKey l k' := by
  induction l with
  | nil => rfl
  | cons hd tl ih =>
    cases hh : (hd.1 == k) with
    | true =>
      have hd1 : hd.1 = k := by simpa using hh
      have hk : (k == k') = false := by
        simp only [beq_eq_false_iff_ne, ne_eq]
        exact fun hkk => hne hkk.symm
      have hk' : (hd.1 == k') = false := by
        rw [hd1]; exact hk
      simp only [List.map_cons, if_pos hh]
      rw [lookupKey_cons_neg hk, lookupKey_cons_neg hk', ih]
    | false =>
      simp only [List.map_cons, hh, Bool.false_eq_true, if_false]
      cases hp : (hd.1 == k') with
      | true => rw [lookupKey_cons_pos hp, lookupKey_cons_pos hp]
      | false => rw [lookupKey_cons_neg hp, lookupKey_cons_neg hp, ih]

theorem lookupKey_setKey_self (l : List (String × JValue)) (k : String)
    (v : JValue) : lookupKey (setKey l k v) k = some v := by
  unfold setKey
  cases h : l.any (fun kv => kv.1 == k) with
  | true => rw [if_pos rfl, find?_map_set_self, if_pos h]
  | false =>
    rw [if_neg Bool.false_ne_true, lookupKey_append,
      lookupKey_of_any_eq_false h]
    exact lookupKey_cons_pos (by simp)

theorem lookupKey_setKey_ne {k k' : String} (l : List (String × JValue))
    (v : JValue) (hne : k' ≠ k) :
    lookupKey (setKey l k v) k' = lookupKey l k' := by
  unfold setKey
  cases h : l.any (fun kv => kv.1 == k) with
  | true =>
    rw [if_pos rfl]
    exact find?_map_set_ne v hne l
  | false =>
    rw [if_neg Bool.false_ne_true, lookupKey_append]
    have hk : (k == k') = false := by
      simp only [beq_eq_false_iff_ne, ne_eq]
      exact fun hkk => hne hkk.symm
    rw [lookupKey_cons_neg hk]
    cases lookupKey l k' <;> rfl

/-! ## Lemmas about property application -/

theorem applyPropEntry_props (o : BObject) (k : String) (v : JValue) :
    (applyPropEntry o k v).props = setKey o.props k v := rfl

theorem applyPropEntry_rnaUI (o : BObject) (k : String) (v : JValue) :
    (applyPropEntry o k v).rnaUI =
      some (setKey (o.rnaUI.getD []) k (uiDescriptor v)) := rfl

theorem applyPropSet_cons (kv : String × JValue) (ps : List (String × JValue))
    (o : BObject) :
    applyPropSet (kv :: ps) o = applyPropSet ps (applyPropEntry o kv.1 kv.2) :=
  rfl

theorem applyPropSet_lookup_of_not_mem (ps : List (String × JValue))
    (o : BObject) (k : String) (h : ∀ kv ∈ ps, kv.1 ≠ k) :
    lookupKey (applyPropSet ps o).props k = lookupKey o.props k ∧
    lookupKey ((applyPropSet ps o).rnaUI.getD []) k =
      lookupKey (o.rnaUI.getD []) k := by
  induction ps generalizing o with
  | nil => exact ⟨rfl, rfl⟩
  | cons hd tl ih =>
    rw [applyPropSet_cons]
    have h1 : hd.1 ≠ k := h hd (List.mem_cons_self hd tl)
    have hrec := ih (applyPropEntry o hd.1 hd.2)
      (fun kv hm => h kv (List.mem_cons_of_mem _ hm))
    refine ⟨?_, ?_⟩
    · rw [hrec.1, applyPropEntry_props, lookupKey_setKey_ne _ _ (Ne.symm h1)]
    · rw [hrec.2, applyPropEntry_rnaUI, Option.getD_some,
        lookupKey_setKey_ne _ _ (Ne.symm h1)]

theorem applyPropSet_rnaUI_isSome (ps : List (String × JValue)) (o : BObject)
    (h : o.rnaUI.isSome = true) :
    ((applyPropSet ps o).rnaUI).isSome = true := by
  induction ps generalizing o with
  | nil => exact h
  | cons hd tl ih =>
    rw [applyPropSet_cons]
    exact ih _ (by rw [applyPropEntry_rnaUI]; rfl)

theorem applyPropSet_applies (ps : List (String × JValue)) (o : BObject)
    (hnd : (ps.map Prod.fst).Nodup) :
    ∀ kv ∈ ps,
      lookupKey (applyPropSet ps o).props kv.1 = some kv.2 ∧
      lookupKey ((applyPropSet ps o).rnaUI.getD []) kv.1 =
        some (uiDescriptor kv.2) ∧
      ((applyPropSet ps o).rnaUI).isSome = true := by
  induction ps generalizing o with
  | nil => intro kv h; cases h
  | cons hd tl ih =>
    intro kv hm
    have hnd' : (tl.map Prod.fst).Nodup := (List.nodup_cons.mp hnd).2
    have hhd : hd.1 ∉ tl.map Prod.fst := (List.nodup_cons.mp hnd).1
    rcases List.mem_cons.mp hm with hm | hm
    · subst hm
      rw [applyPropSet_cons]
      have hne : ∀ kv' ∈ tl, kv'.1 ≠ kv.1 := by
        intro kv' h' heq
        exact hhd (heq ▸ List.mem_map_of_mem Prod.fst h')
      obtain ⟨hp, hu⟩ :=
        applyPropSet_lookup_of_not_mem tl (applyPropEntry o kv.1 kv.2) kv.1 hne
      refine ⟨?_, ?_, ?_⟩
      · rw [hp, applyPropEntry_props, lookupKey_setKey_self]
      · rw [hu, applyPropEntry_rnaUI, Option.getD_some, lookupKey_setKey_self]
      · exact applyPropSet_rnaUI_isSome tl _ (by rw [applyPropEntry_rnaUI]; rfl)
    · rw [applyPropSet_cons]
      exact ih (applyPropEntry o hd.1 hd.2) hnd' kv hm

/-! ## Lemmas about suffix classification -/

theorem endsWith_drop_eq {s t : String} (h : endsWithStr s t = true) :
    s.data.drop (s.data.length - t.data.length) = t.data := by
  unfold endsWithStr at h
  simp only [Bool.and_eq_true, decide_eq_true_eq, beq_iff_eq] at h
  exact h.2

theorem endsWith_le {s t : String} (h : endsWithStr s t = true) :
    t.data.length ≤ s.data.length := by
  unfold endsWithStr at h
  simp only [Bool.and_eq_true, decide_eq_true_eq, beq_iff_eq] at h
  exact h.1

theorem endsWith_last_k {s t : String} (h : endsWithStr s t = true)
    {k : Nat} (hk : k ≤ t.data.length) :
    s.data.drop (s.data.length - k) = t.data.drop (t.data.length - k) := by
  have h1 := endsWith_drop_eq h
  have h2 := endsWith_le h
  have harith : s.data.length - k =
      (s.data.length - t.data.length) + (t.data.length - k) := by omega
  rw [harith, ← List.drop_drop, h1]

theorem not_both_suffix {s t₁ t₂ : String} (k : Nat)
    (h1 : endsWithStr s t₁ = true) (h2 : endsWithStr s t₂ = true)
    (hk1 : k ≤ t₁.data.length) (hk2 : k ≤ t₂.data.length)
    (hne : t₁.data.drop (t₁.data.length - k) ≠
      t₂.data.drop (t₂.data.length - k)) : False :=
  hne ((endsWith_last_k h1 hk1).symm.trans (endsWith_last_k h2 hk2))

theorem glb_not_txt {s : String} (h : endsWithStr s ".glb" = true) :
    endsWithStr s ".txt" = false := by
  cases h2 : endsWithStr s ".txt" with
  | false => rfl
  | true => exact (not_both_suffix 4 h h2 (by decide) (by decide) (by decide)).elim

theorem glb_not_safetensor {s : String} (h : endsWithStr s ".glb" = true) :
    endsWithStr s ".safetensor" = false := by
  cases h2 : endsWithStr s ".safetensor" with
  | false => rfl
  | true => exact (not_both_suffix 4 h h2 (by decide) (by decide) (by decide)).elim

theorem txt_not_safetensor {s : String} (h : endsWithStr s ".txt" = true) :
    endsWithStr s ".safetensor" = false := by
  cases h2 : endsWithStr s ".safetensor" with
  | false => rfl
  | true => exact (not_both_suffix 4 h h2 (by decide) (by decide) (by decide)).elim

theorem findFiles_go (names : List String)
    (acc : Option String × Option String × Option String) :
    names.foldl classifyStep acc =
      ((lastMatch ".glb" names).or acc.1,
       (lastMatch ".txt" names).or acc.2.1,
       (lastMatch ".safetensor" names).or acc.2.2) := by
  induction names generalizing acc with
  | nil => rfl
  | cons n rest ih =>
    rw [List.foldl_cons, ih]
    unfold classifyStep
    cases hg : endsWithStr (lowerStr n) ".glb" with
    | true =>
      have ht := glb_not_txt hg
      have hs := glb_not_safetensor hg
      simp [lastMatch, hg, ht, hs, Option.or_assoc]
    | false =>
      cases ht : endsWithStr (lowerStr n) ".txt" with
      | true =>
        have hs := txt_not_safetensor ht
        simp [lastMatch, hg, ht, hs, Option.or_assoc]
      | false =>
        cases hs : endsWithStr (lowerStr n) ".safetensor" with
        | true => simp [lastMatch, hg, ht, hs, Option.or_assoc]
        | false => simp [lastMatch, hg, ht, hs]

/-! ## Claim C3 -/

/-- Claim C3, counterexample: an archive whose one entry declares 6 GiB —
above the 5 GiB cap — is nevertheless extracted in full; no
`ArchiveTooLarge` failure occurs (the code has no size check at all). -/
theorem oversized_archive_extracted :
    sumSizes bigNX3 > sizeCapBytes ∧
    extractAll bigNX3 = .ok [("model.glb", 6 * 2 ^ 30)] ∧
    extractAll bigNX3 ≠ .error .ArchiveTooLarge := by
  refine ⟨by decide, rfl, ?_⟩
  intro h
  rw [show extractAll bigNX3 = .ok [("model.glb", 6 * 2 ^ 30)] from rfl] at h
  exact Except.noConfusion h

/-- Claim C3 (amended): `unpack` performs no size check: every well-formed
archive is extracted in full whatever its summed declared uncompressed
size, and `ArchiveTooLarge` is never produced (only `CorruptArchive`
guards extraction). -/
theorem extractAll_no_size_guard (a : ZipArchive) :
    (a.wellFormed = true → extractAll a = .ok a.entries) ∧
    extractAll a ≠ .error .ArchiveTooLarge := by
  unfold extractAll
  cases h : a.wellFormed <;> simp [h]

/-- Witness for the amended C3 at the oversized archive. -/
theorem extractAll_no_size_guard_witness :
    extractAll bigNX3 = .ok bigNX3.entries ∧
    extractAll bigNX3 ≠ .error .ArchiveTooLarge :=
  ⟨(extractAll_no_size_guard bigNX3).1 rfl, (extractAll_no_size_guard bigNX3).2⟩

/-! ## Claim C8 -/

/-- Claim C8, counterexample: a `*.json` entry is NOT classified as the
metadata record — the scan recognises only `.glb`, `.txt` and
`.safetensor`; with entries `model.glb` and `nx3.json` the metadata role
stays empty. -/
theorem json_entry_not_classified :
    endsWithStr (lowerStr "nx3.json") ".json" = true ∧
    (findFiles ["model.glb", "nx3.json"]).2.1 = none ∧
    (findFiles ["model.glb", "nx3.json"]).1 = some "model.glb" := by
  decide

/-- Claim C8 (amended): roles are assigned by case-insensitive suffix match
over entry names, not position: the model is the last `*.glb` entry, the
metadata record the last `*.txt` entry (`*.json` is not recognised), and
the weights blob the last `*.safetensor` entry. -/
theorem findFiles_by_suffix (names : List String) :
    findFiles names =
      (lastMatch ".glb" names, lastMatch ".txt" names,
       lastMatch ".safetensor" names) := by
  unfold findFiles
  rw [findFiles_go]
  simp [Option.or_none]

/-! ## Claim C9 -/

/-- Claim C9, counterexample: metadata whose bytes are malformed JSON does
not fail the import — it yields a warning and an otherwise-successful run;
a top-level non-mapping is silently ignored without even a warning.
`InvalidMetadata` is never produced. -/
theorem malformed_metadata_not_fatal :
    importExecute impMalformed [] [] = .ok ([], true) ∧
    importExecute impMalformed [] [] ≠ .error .InvalidMetadata ∧
    importExecute impNonMapping [] [] = .ok ([], false) := by
  refine ⟨rfl, ?_, rfl⟩
  intro h
  rw [show importExecute impMalformed [] [] = .ok ([], true) from rfl] at h
  exact Except.noConfusion h

/-- Claim C9 (amended): metadata parsing can never fail the import: a
`json.load` exception produces a warning and absent properties, a
non-mapping top level silently produces absent properties, and
`importExecute` never returns `InvalidMetadata`. -/
theorem metadata_never_fatal (inp : ImportInput) (scene decoded : List BObject) :
    importExecute inp scene decoded ≠ .error .InvalidMetadata ∧
    loadProperties .malformed = (none, true) ∧
    (∀ v : JValue, v.isObj = false → loadProperties (.ok v) = (none, false)) := by
  refine ⟨?_, rfl, ?_⟩
  · unfold importExecute
    split
    · rename_i e heq
      unfold extractAll at heq
      split at heq
      · exact Except.noConfusion heq
      · injection heq with h
        subst h
        intro hcon
        injection hcon with h2
        exact NX3Error.noConfusion h2
    · rename_i entries heq
      dsimp only
      split
      · intro hcon
        injection hcon with h2
        exact NX3Error.noConfusion h2
      · intro hcon
        exact Except.noConfusion hcon
  · intro v hv
    cases v <;> try rfl
    exact absurd hv (by simp [JValue.isObj])

/-- Witness for the amended C9 at the malformed-metadata import. -/
theorem metadata_never_fatal_witness :
    importExecute impMalformed [] [] ≠ .error .InvalidMetadata ∧
    loadProperties (.ok (.arr [.int 1])) = (none, false) :=
  ⟨(metadata_never_fatal impMalformed [] []).1,
   (metadata_never_fatal impMalformed [] []).2.2 (.arr [.int 1]) rfl⟩

/-! ## Claim C5 -/

/-- Claim C5, counterexample: the fallback strips everything from the FIRST
separator, not the last: an object named `"A.B.001"` with properties keyed
`"A.B"` receives nothing, although the name stripped at its last separator
(`"A.B"`) is a key of the property table. -/
theorem last_separator_match_fails :
    stripLastSuffix "A.B.001" = "A.B" ∧
    (lookupKey cexPdAB "A.B").isSome = true ∧
    matchPropSet cexPdAB "A.B.001" = none ∧
    applyNestedObj cexPdAB cexObjAB = some cexObjAB :=
  ⟨rfl, rfl, rfl, rfl⟩

/-- Claim C5 (amended): per-object matching tries the exact object name
first, then the name with everything from the FIRST separator onward
removed (`split('.')[0]`); `"Cube.001"` still receives the set keyed
`"Cube"`, and an object matching neither form receives no properties and
raises no error. -/
theorem nested_match_rule (pd : List (String × JValue)) (obj : BObject) :
    (∀ v, lookupKey pd obj.name = some v → matchPropSet pd obj.name = some v) ∧
    (lookupKey pd obj.name = none →
      matchPropSet pd obj.name = lookupKey pd (firstComponent obj.name)) ∧
    (matchPropSet pd obj.name = none → applyNestedObj pd obj = some obj) ∧
    (∀ v, matchPropSet [("Cube", v)] "Cube.001" = some v) := by
  refine ⟨?_, ?_, ?_, fun v => rfl⟩
  · intro v h
    unfold matchPropSet
    rw [h]
  · intro h
    unfold matchPropSet
    rw [h]
  · intro h
    unfold applyNestedObj
    rw [h]

/-- Witness for the amended C5. -/
theorem nested_match_rule_witness :
    matchPropSet [("Cube", JValue.int 3)] "Cube" = some (JValue.int 3) ∧
    applyNestedObj cexPdAB cexObjAB = some cexObjAB ∧
    matchPropSet [("Cube", JValue.int 3)] "Cube.001" = some (JValue.int 3) :=
  ⟨(nested_match_rule [("Cube", JValue.int 3)] cexObjCube).1 (JValue.int 3) rfl,
   (nested_match_rule cexPdAB cexObjAB).2.2.1 rfl,
   (nested_match_rule [("Cube", JValue.int 3)] cexObjCube).2.2.2 (JValue.int 3)⟩

/-! ## Claim C4 -/

/-- Claim C4, counterexample: the nested path stores the matched value
verbatim: the textual `"42"` is stored as the string `"42"`, although the
coercion the claim asserts (`coerce`) would turn it into the integer 42.
The coercing helper `apply_properties` is dead code on this path. -/
theorem nested_apply_without_coercion :
    (applyNestedObj cexPdCube cexObjCube).map (fun o => lookupKey o.props "a") =
      some (some (.str "42")) ∧
    coerce (.str "42") = .int 42 ∧
    JValue.str "42" ≠ JValue.int 42 :=
  ⟨rfl, rfl, fun h => JValue.noConfusion h⟩

/-- Claim C4 (amended): each key/value pair of the matched set is applied
verbatim — without any numeric coercion — by upserting it as a custom
property and mirroring a UI-description entry for the key, creating the
side table when absent. -/
theorem nested_apply_verbatim (pd : List (String × JValue)) (obj : BObject)
    (ps : List (String × JValue))
    (hm : matchPropSet pd obj.name = some (.obj ps))
    (hnd : (ps.map Prod.fst).Nodup) :
    ∃ obj', applyNestedObj pd obj = some obj' ∧
      ∀ kv ∈ ps,
        lookupKey obj'.props kv.1 = some kv.2 ∧
        lookupKey (obj'.rnaUI.getD []) kv.1 = some (uiDescriptor kv.2) ∧
        (obj'.rnaUI).isSome = true := by
  refine ⟨applyPropSet ps obj, ?_, applyPropSet_applies ps obj hnd⟩
  unfold applyNestedObj
  rw [hm]

/-- Witness for the amended C4. -/
theorem nested_apply_verbatim_witness :
    ∃ obj', applyNestedObj cexPdCube cexObjCube = some obj' ∧
      ∀ kv ∈ [("a", JValue.str "42")],
        lookupKey obj'.props kv.1 = some kv.2 ∧
        lookupKey (obj'.rnaUI.getD []) kv.1 = some (uiDescriptor kv.2) ∧
        (obj'.rnaUI).isSome = true :=
  nested_apply_verbatim cexPdCube cexObjCube [("a", .str "42")] rfl (by decide)

/-! ## Claim C7 -/

/-- Claim C7: a parsed properties mapping is classified nested exactly when
some value is itself a mapping; the empty mapping is classified flat and
applies nothing; under the flat rule every pair is applied to every new
mesh object and non-mesh objects receive nothing. -/
theorem shape_and_flat_rule (entries : List (String × JValue))
    (objs : List BObject) (obj : BObject) :
    (classifyShape entries = .nested ↔ ∃ kv ∈ entries, kv.2.isObj = true) ∧
    classifyShape [] = .flat ∧
    applyPropertiesData (some (.obj [])) objs = objs ∧
    (obj.objType ≠ .MESH → flatApplyObj entries obj = obj) ∧
    (obj.objType = .MESH → (entries.map Prod.fst).Nodup →
      ∀ kv ∈ entries,
        lookupKey (flatApplyObj entries obj).props kv.1 = some kv.2) ∧
    (classifyShape entries = .flat → entries ≠ [] → objs ≠ [] →
      applyPropertiesData (some (.obj entries)) objs =
        objs.map (flatApplyObj entries)) := by
  refine ⟨?_, rfl, ?_, ?_, ?_, ?_⟩
  · have hcls : classifyShape entries = .nested ↔
        entries.any (fun kv => kv.2.isObj) = true := by
      unfold classifyShape
      cases entries.any (fun kv => kv.2.isObj) <;> simp
    exact hcls.trans (by simp [List.any_eq_true])
  · rfl
  · intro h
    unfold flatApplyObj
    rw [if_neg h]
  · intro hmesh hnd kv hkv
    unfold flatApplyObj
    rw [if_pos hmesh]
    exact (applyPropSet_applies entries obj hnd kv hkv).1
  · intro hflat hent hobjs
    unfold applyPropertiesData
    cases entries with
    | nil => exact absurd rfl hent
    | cons e es =>
      cases objs with
      | nil => exact absurd rfl hobjs
      | cons o os =>
        simp only [jvTruthy, List.isEmpty_cons, Bool.not_false, Bool.false_or,
          Bool.not_true, if_neg Bool.false_ne_true]
        rw [hflat]
        rfl

/-- Witness for C7 at concrete flat properties over one mesh and one
non-mesh object. -/
theorem shape_and_flat_rule_witness :
    flatApplyObj [("a", JValue.int 1)] lampNew = lampNew ∧
    lookupKey (flatApplyObj [("a", JValue.int 1)] cubeNew).props "a" =
      some (JValue.int 1) ∧
    applyPropertiesData (some (.obj [("a", JValue.int 1)])) [cubeNew, lampNew] =
      List.map (flatApplyObj [("a", JValue.int 1)]) [cubeNew, lampNew] := by
  have h1 := shape_and_flat_rule [("a", JValue.int 1)] [cubeNew, lampNew] lampNew
  have h2 := shape_and_flat_rule [("a", JValue.int 1)] [cubeNew, lampNew] cubeNew
  refine ⟨h1.2.2.2.1 (by decide), ?_, ?_⟩
  · exact h2.2.2.2.2.1 rfl (by decide) ("a", JValue.int 1)
      (List.mem_cons_self _ _)
  · exact h2.2.2.2.2.2 rfl (List.cons_ne_nil _ _) (List.cons_ne_nil _ _)

/-! ## Lemmas about host name assignment -/

theorem contains_false_of_not_mem {l : List String} {a : String}
    (h : a ∉ l) : l.contains a = false := by
  cases hc : l.contains a with
  | false => rfl
  | true => exact absurd (by simpa using hc) h

theorem not_mem_of_contains_false {l : List String} {a : String}
    (h : l.contains a = false) : a ∉ l := by
  intro hm
  have : l.contains a = true := by simpa using hm
  rw [this] at h
  exact Bool.noConfusion h

theorem maxLen_ge {l : List String} {s : String} (h : s ∈ l) :
    s.data.length ≤ maxLen l := by
  induction l with
  | nil => cases h
  | cons hd tl ih =>
    show _ ≤ max hd.data.length (maxLen tl)
    rcases List.mem_cons.mp h with h | h
    · subst h; exact le_max_left _ _
    · exact le_trans (ih h) (le_max_right _ _)

theorem longFresh_length (base : String) (taken : List String) :
    (longFresh base taken).data.length =
      base.data.length + 1 + (maxLen taken + 1) := by
  simp [longFresh, String.data_append]
  omega

theorem longFresh_not_mem (base : String) (taken : List String) :
    longFresh base taken ∉ taken := by
  intro hmem
  have h1 := maxLen_ge hmem
  rw [longFresh_length] at h1
  omega

theorem freshName_not_mem (base : String) (taken : List String) :
    freshName base taken ∉ taken := by
  unfold freshName
  cases hc : taken.contains base with
  | false =>
    rw [if_neg Bool.false_ne_true]
    exact not_mem_of_contains_false hc
  | true =>
    rw [if_pos rfl]
    cases hf : (candidateNames base (taken.length + 1)).find?
        (fun c => !(taken.contains c)) with
    | some c =>
      have hp := List.find?_some hf
      simp only [Bool.not_eq_true'] at hp
      exact not_mem_of_contains_false hp
    | none => exact longFresh_not_mem base taken

/-! ## Generic find? helpers -/

theorem find?_append_of_isSome {α : Type} {p : α → Bool} {l₁ l₂ : List α}
    (h : (l₁.find? p).isSome = true) :
    (l₁ ++ l₂).find? p = l₁.find? p := by
  induction l₁ with
  | nil => simp at h
  | cons hd tl ih =>
    cases hp : p hd with
    | true => simp [List.find?_cons, hp]
    | false =>
      rw [List.find?_cons, hp] at h
      simp only [List.cons_append, List.find?_cons, hp]
      exact ih h

theorem find?_append_of_none {α : Type} {p : α → Bool} {l₁ l₂ : List α}
    (h : l₁.find? p = none) :
    (l₁ ++ l₂).find? p = l₂.find? p := by
  induction l₁ with
  | nil => rfl
  | cons hd tl ih =>
    cases hp : p hd with
    | true => rw [List.find?_cons, hp] at h; exact Option.noConfusion h
    | false =>
      rw [List.find?_cons, hp] at h
      simp only [List.cons_append, List.find?_cons, hp]
      exact ih h

theorem find?_name_isSome {objs : List BObject} {nm : String}
    (h : nm ∈ objs.map (fun o => o.name)) :
    (objs.find? (fun o => o.name == nm)).isSome = true := by
  obtain ⟨o, ho, hname⟩ := List.mem_map.mp h
  exact List.find?_isSome.mpr ⟨o, ho, by simp [hname]⟩

theorem find?_name_none {objs : List BObject} {nm : String}
    (h : nm ∉ objs.map (fun o => o.name)) :
    objs.find? (fun o => o.name == nm) = none := by
  apply List.find?_eq_none.mpr
  intro o ho hcon
  have : o.name = nm := by simpa using hcon
  exact h (this ▸ List.mem_map_of_mem _ ho)

/-! ## ExInv: basic facts -/

theorem exInv_refl (s : Scene) : ExInv s s :=
  ⟨⟨[], by simp, by simp⟩, ⟨[], by simp, by simp⟩, Nat.le_refl _⟩

theorem ExInv.names_eq {s₀ s : Scene} (h : ExInv s₀ s) :
    ∃ restNames, sceneNames s = sceneNames s₀ ++ restNames ∧
      ∀ n ∈ restNames, n ∉ sceneNames s₀ := by
  obtain ⟨rest, hobjs, hrest⟩ := h.objsEq
  refine ⟨rest.map (fun o => o.name), ?_, ?_⟩
  · unfold sceneNames
    rw [hobjs, List.map_append]
  · intro n hn
    obtain ⟨o, ho, hname⟩ := List.mem_map.mp hn
    exact hname ▸ (hrest o ho).1

theorem ExInv.mem_names {s₀ s : Scene} (h : ExInv s₀ s) {nm : String}
    (hm : nm ∈ sceneNames s₀) : nm ∈ sceneNames s := by
  obtain ⟨restNames, hn, _⟩ := h.names_eq
  rw [hn]
  exact List.mem_append_left _ hm

theorem ExInv.lookup_eq {s₀ s : Scene} (h : ExInv s₀ s) {nm : String}
    (hm : nm ∈ sceneNames s₀) : lookupObj s nm = lookupObj s₀ nm := by
  obtain ⟨rest, heq, _⟩ := h.objsEq
  unfold lookupObj
  rw [heq]
  exact find?_append_of_isSome (find?_name_isSome hm)

theorem ExInv.lookupData_eq {s₀ s : Scene} (h : ExInv s₀ s) {r : Nat}
    (hs : (lookupData s₀.store r).isSome = true) :
    lookupData s.store r = lookupData s₀.store r := by
  obtain ⟨srest, heq, _⟩ := h.storeEq
  unfold lookupData at hs ⊢
  cases hfind : s₀.store.find? (fun p => p.1 == r) with
  | none => rw [hfind] at hs; simp at hs
  | some p => rw [heq, find?_append_of_isSome (by rw [hfind]; rfl), hfind]

theorem ExInv.dataValOf_eq {s₀ s : Scene} (h : ExInv s₀ s)
    (hwf : Scene.WF s₀) {nm : String} (hm : nm ∈ sceneNames s₀) :
    dataValOf s nm = dataValOf s₀ nm := by
  unfold dataValOf
  rw [h.lookup_eq hm]
  cases ho : lookupObj s₀ nm with
  | none => rfl
  | some o =>
    dsimp only
    cases hr : o.dataRef with
    | none => rfl
    | some r =>
      apply h.lookupData_eq
      have hom : o ∈ s₀.objs := List.mem_of_find?_eq_some ho
      exact hwf.2 o hom r (by simp [hr])

theorem ExInv.lookup_fresh_refs {s₀ s : Scene} (h : ExInv s₀ s)
    {nm : String} {o : BObject} (hnm : nm ∉ sceneNames s₀)
    (hl : lookupObj s nm = some o) :
    ∀ r ∈ o.dataRef.toList, s₀.nextId ≤ r := by
  obtain ⟨rest, hobjs, hrest⟩ := h.objsEq
  unfold lookupObj at hl
  rw [hobjs, find?_append_of_none (find?_name_none hnm)] at hl
  exact (hrest o (List.mem_of_find?_eq_some hl)).2

/-! ## ExInv: preservation through the pipeline steps -/

theorem exInv_dupObject {s₀ s : Scene} (h : ExInv s₀ s) (o : BObject) :
    ExInv s₀ (dupObject s o).1 ∧ (dupObject s o).2 ∉ sceneNames s₀ := by
  have hfresh : freshName o.name (sceneNames s) ∉ sceneNames s :=
    freshName_not_mem _ _
  have hfresh0 : freshName o.name (sceneNames s) ∉ sceneNames s₀ :=
    fun hm => hfresh (h.mem_names hm)
  obtain ⟨rest, hobjs, hrest⟩ := h.objsEq
  obtain ⟨srest, hstore, hsrest⟩ := h.storeEq
  unfold dupObject
  cases hdr : o.dataRef with
  | some i =>
    dsimp only
    refine ⟨⟨⟨rest ++ [{ o with
          name := freshName o.name (sceneNames s)
          dataRef := some s.nextId }], ?_, ?_⟩,
      ⟨srest ++ [(s.nextId, (lookupData s.store i).getD ⟨0, []⟩)], ?_, ?_⟩,
      ?_⟩, hfresh0⟩
    · rw [hobjs, List.append_assoc]
    · intro ob hob
      rcases List.mem_append.mp hob with hob | hob
      · exact hrest ob hob
      · rw [List.mem_singleton.mp hob]
        exact ⟨hfresh0, fun r hr => by
          simp only [Option.toList_some, List.mem_singleton] at hr
          exact hr ▸ h.nidLe⟩
    · rw [hstore, List.append_assoc]
    · intro p hp
      rcases List.mem_append.mp hp with hp | hp
      · exact hsrest p hp
      · rw [List.mem_singleton.mp hp]
        exact h.nidLe
    · exact Nat.le_succ_of_le h.nidLe
  | none =>
    dsimp only
    refine ⟨⟨⟨rest ++ [{ o with
          name := freshName o.name (sceneNames s)
          dataRef := none }], ?_, ?_⟩, h.storeEq, h.nidLe⟩, hfresh0⟩
    · rw [hobjs, List.append_assoc]
    · intro ob hob
      rcases List.mem_append.mp hob with hob | hob
      · exact hrest ob hob
      · rw [List.mem_singleton.mp hob]
        refine ⟨hfresh0, fun r hr => ?_⟩
        simp only [Option.toList_none] at hr
        cases hr

theorem exInv_updateObj {s₀ s : Scene} (h : ExInv s₀ s) {nm : String}
    (hnm : nm ∉ sceneNames s₀) (f : BObject → BObject)
    (hfn : ∀ o, (f o).name = o.name ∨ (f o).name ∉ sceneNames s₀)
    (hfr : ∀ o, (f o).dataRef = o.dataRef) :
    ExInv s₀ (updateObj s nm f) := by
  obtain ⟨rest, hobjs, hrest⟩ := h.objsEq
  refine ⟨⟨rest.map (fun o => if o.name == nm then f o else o), ?_, ?_⟩,
    h.storeEq, h.nidLe⟩
  · unfold updateObj
    dsimp only
    rw [hobjs, List.map_append]
    congr 1
    rw [show s₀.objs.map (fun o => if o.name == nm then f o else o) =
        s₀.objs.map id from ?_, List.map_id]
    apply List.map_congr_left
    intro ob hob
    have hne : (ob.name == nm) = false := by
      simp only [beq_eq_false_iff_ne, ne_eq]
      intro heq
      exact hnm (heq ▸ List.mem_map_of_mem _ hob)
    rw [hne]
    rfl
  · intro o' ho'
    obtain ⟨ob, hob, hval⟩ := List.mem_map.mp ho'
    cases hb : (ob.name == nm) with
    | false =>
      rw [hb] at hval
      simp only [Bool.false_eq_true, if_false] at hval
      exact hval ▸ hrest ob hob
    | true =>
      rw [hb] at hval
      simp only [if_true] at hval
      subst hval
      refine ⟨?_, ?_⟩
      · rcases hfn ob with heq | hmem
        · exact heq ▸ (hrest ob hob).1
        · exact hmem
      · rw [hfr ob]
        exact (hrest ob hob).2

theorem exInv_updateData {s₀ s : Scene} (h : ExInv s₀ s) (hwf : Scene.WF s₀)
    {r : Nat} (hr : s₀.nextId ≤ r) (f : DataVal → DataVal) :
    ExInv s₀ (updateData s r f) := by
  obtain ⟨srest, hstore, hsrest⟩ := h.storeEq
  refine ⟨h.objsEq, ⟨srest.map (fun p => if p.1 == r then (p.1, f p.2) else p),
    ?_, ?_⟩, h.nidLe⟩
  · unfold updateData
    dsimp only
    rw [hstore, List.map_append]
    congr 1
    rw [show s₀.store.map (fun p => if p.1 == r then (p.1, f p.2) else p) =
        s₀.store.map id from ?_, List.map_id]
    apply List.map_congr_left
    intro p hp
    have hlt : p.1 < s₀.nextId := hwf.1 p hp
    have hne : (p.1 == r) = false := by
      simp only [beq_eq_false_iff_ne, ne_eq]
      omega
    rw [hne]
    rfl
  · intro p' hp'
    obtain ⟨p, hp, hval⟩ := List.mem_map.mp hp'
    cases hb : (p.1 == r) with
    | false =>
      rw [hb] at hval
      simp only [Bool.false_eq_true, if_false] at hval
      exact hval ▸ hsrest p hp
    | true =>
      rw [hb] at hval
      simp only [if_true] at hval
      exact hval ▸ hsrest p hp

theorem exInv_objsFilter {s₀ s : Scene} (h : ExInv s₀ s) (q : BObject → Bool)
    (hq : ∀ o ∈ s₀.objs, q o = true) :
    ExInv s₀ { s with objs := s.objs.filter q } := by
  obtain ⟨rest, hobjs, hrest⟩ := h.objsEq
  refine ⟨⟨rest.filter q, ?_, ?_⟩, h.storeEq, h.nidLe⟩
  · dsimp only
    rw [hobjs, List.filter_append]
    congr 1
    exact List.filter_eq_self.mpr hq
  · intro o ho
    exact hrest o (List.mem_of_mem_filter ho)

theorem exInv_removeByName {s₀ s : Scene} (h : ExInv s₀ s) {nm : String}
    (hnm : nm ∉ sceneNames s₀) : ExInv s₀ (removeByName s nm) := by
  unfold removeByName
  cases hc : (sceneNames s).contains nm with
  | false => exact h
  | true =>
    rw [if_pos rfl]
    unfold removeObject
    apply exInv_objsFilter h
    intro o ho
    simp only [decide_eq_true_eq, ne_eq]
    intro heq
    exact hnm (heq ▸ List.mem_map_of_mem _ ho)

theorem exInv_removeFold {s₀ : Scene} (names : List String)
    (hns : ∀ n ∈ names, n ∉ sceneNames s₀) :
    ∀ s, ExInv s₀ s → ExInv s₀ (names.foldl removeByName s) := by
  induction names with
  | nil => exact fun s h => h
  | cons hd tl ih =>
    intro s h
    rw [List.foldl_cons]
    exact ih (fun n hn => hns n (List.mem_cons_of_mem _ hn)) _
      (exInv_removeByName h (hns hd (List.mem_cons_self _ _)))

theorem exInv_bakeModifiers {s₀ s : Scene} (h : ExInv s₀ s)
    (hwf : Scene.WF s₀) {nm : String} (hnm : nm ∉ sceneNames s₀) :
    ExInv s₀ (bakeModifiers s nm) := by
  unfold bakeModifiers
  cases hl : lookupObj s nm with
  | none => exact h
  | some o =>
    dsimp only
    have hrefs := h.lookup_fresh_refs hnm hl
    cases hdr : o.dataRef with
    | none =>
      exact exInv_updateObj h hnm _ (fun ob => Or.inl rfl) (fun ob => rfl)
    | some r =>
      have hr : s₀.nextId ≤ r := hrefs r (by simp [hdr])
      exact exInv_updateObj (exInv_updateData h hwf hr _) hnm _
        (fun ob => Or.inl rfl) (fun ob => rfl)

theorem exInv_duplicateAll (s₀ : Scene) (hwf : Scene.WF s₀)
    (sel : List String) (applyMods : Bool) :
    ExInv s₀ (duplicateAll s₀ sel applyMods).1 ∧
    ∀ n ∈ (duplicateAll s₀ sel applyMods).2, n ∉ sceneNames s₀ := by
  unfold duplicateAll
  suffices hgen : ∀ (l : List String) (acc : Scene × List String),
      ExInv s₀ acc.1 → (∀ n ∈ acc.2, n ∉ sceneNames s₀) →
      ExInv s₀ (l.foldl (duplicateStep applyMods) acc).1 ∧
      ∀ n ∈ (l.foldl (duplicateStep applyMods) acc).2, n ∉ sceneNames s₀ by
    exact hgen sel (s₀, []) (exInv_refl s₀) (fun n hn => absurd hn (List.not_mem_nil n))
  intro l
  induction l with
  | nil => exact fun acc h1 h2 => ⟨h1, h2⟩
  | cons hd tl ih =>
    intro acc h1 h2
    rw [List.foldl_cons]
    apply ih
    · unfold duplicateStep
      cases hl : lookupObj acc.1 hd with
      | none => exact h1
      | some o =>
        dsimp only
        by_cases hm : o.objType = ObjType.MESH ∧ applyMods = true
        · rw [if_pos hm]
          exact exInv_bakeModifiers (exInv_dupObject h1 o).1 hwf
            (exInv_dupObject h1 o).2
        · rw [if_neg hm]
          exact (exInv_dupObject h1 o).1
    · unfold duplicateStep
      cases hl : lookupObj acc.1 hd with
      | none => exact h2
      | some o =>
        dsimp only
        intro n hn
        rcases List.mem_append.mp hn with hn | hn
        · exact h2 n hn
        · rw [List.mem_singleton.mp hn]
          exact (exInv_dupObject h1 o).2

theorem exInv_joinObjects {s₀ s : Scene} (h : ExInv s₀ s) (hwf : Scene.WF s₀)
    {names : List String} {active : String}
    (hns : ∀ n ∈ names, n ∉ sceneNames s₀) (hact : active ∈ names) :
    ExInv s₀ (joinObjects s names active) := by
  have hq : ∀ ob ∈ s₀.objs,
      (fun o => decide (o.name ∉ names ∨ o.name = active)) ob = true := by
    intro ob hob
    apply decide_eq_true
    left
    intro hmem
    exact hns ob.name hmem (List.mem_map_of_mem _ hob)
  unfold joinObjects
  dsimp only
  cases hl : lookupObj s active with
  | none => exact exInv_objsFilter h _ hq
  | some o =>
    dsimp only
    cases hdr : o.dataRef with
    | none => exact exInv_objsFilter h _ hq
    | some r =>
      have hr := h.lookup_fresh_refs (hns active hact) hl r (by simp [hdr])
      exact exInv_objsFilter (exInv_updateData h hwf hr _) _ hq

theorem exInv_renameObject {s₀ s : Scene} (h : ExInv s₀ s) {old : String}
    (hold : old ∉ sceneNames s₀) (base : String) :
    ExInv s₀ (renameObject s old base).1 ∧
    (renameObject s old base).2 ∉ sceneNames s₀ := by
  unfold renameObject
  dsimp only
  have hsub : ∀ x ∈ sceneNames s₀,
      x ∈ (sceneNames s).filter (fun n => n ≠ old) := by
    intro x hx
    apply List.mem_filter.mpr
    refine ⟨h.mem_names hx, ?_⟩
    simp only [decide_eq_true_eq, ne_eq]
    intro heq
    exact hold (heq ▸ hx)
  have hfr := freshName_not_mem base ((sceneNames s).filter (fun n => n ≠ old))
  have hfr0 : freshName base ((sceneNames s).filter (fun n => n ≠ old)) ∉
      sceneNames s₀ := fun hm => hfr (hsub _ hm)
  exact ⟨exInv_updateObj h hold _ (fun ob => Or.inr hfr0) (fun ob => rfl), hfr0⟩

theorem rewrite_foldl_eq {others : List String} {first merged : String}
    (l acc : List String) :
    l.foldl (fun acc d => if d ∈ others then acc
      else if d = first then acc ++ [merged] else acc ++ [d]) acc =
      acc ++ l.flatMap (mergeG others first merged) := by
  induction l generalizing acc with
  | nil => simp
  | cons hd tl ih =>
    rw [List.foldl_cons, List.flatMap_cons]
    by_cases h1 : hd ∈ others
    · rw [if_pos h1, ih]
      simp [mergeG, h1]
    · by_cases h2 : hd = first
      · rw [if_neg h1, if_pos h2, ih]
        subst h2
        simp [mergeG, h1]
      · rw [if_neg h1, if_neg h2, ih]
        simp [mergeG, h1, h2]

theorem exInv_combineStep {s₀ s : Scene} (h : ExInv s₀ s) (hwf : Scene.WF s₀)
    (dups : List String) (base : String)
    (hd : ∀ n ∈ dups, n ∉ sceneNames s₀) :
    ExInv s₀ (combineStep s dups base).1 ∧
    ∀ n ∈ (combineStep s dups base).2, n ∉ sceneNames s₀ := by
  unfold combineStep
  cases hf : dups.filter (isMeshName s) with
  | nil => exact ⟨h, hd⟩
  | cons first others =>
    dsimp only
    have hmesh_sub : ∀ n ∈ first :: others, n ∈ dups := by
      intro n hn
      exact List.mem_of_mem_filter (l := dups) (by rw [hf]; exact hn)
    have hfirst0 : first ∉ sceneNames s₀ :=
      hd first (hmesh_sub first (List.mem_cons_self _ _))
    have hmesh0 : ∀ n ∈ first :: others, n ∉ sceneNames s₀ :=
      fun n hn => hd n (hmesh_sub n hn)
    have hJ : ExInv s₀ (joinObjects s (first :: others) first) :=
      exInv_joinObjects h hwf hmesh0 (List.mem_cons_self _ _)
    have hR := exInv_renameObject hJ hfirst0 base
    refine ⟨exInv_removeFold others
      (fun n hn => hmesh0 n (List.mem_cons_of_mem _ hn)) _ hR.1, ?_⟩
    intro n hn
    rw [rewrite_foldl_eq, List.nil_append] at hn
    obtain ⟨d, hdm, hdn⟩ := List.mem_flatMap.mp hn
    unfold mergeG at hdn
    by_cases h1 : d ∈ others
    · rw [if_pos h1] at hdn
      cases hdn
    · rw [if_neg h1] at hdn
      by_cases h2 : d = first
      · rw [if_pos h2] at hdn
        rw [List.mem_singleton.mp hdn]
        exact hR.2
      · rw [if_neg h2] at hdn
        rw [List.mem_singleton.mp hdn]
        exact hd d hdm

/-! ## The merged tracked-list rewrite versus the spec's description -/

theorem flatMap_congr_mem {α β : Type} {l : List α} {f g : α → List β}
    (h : ∀ x ∈ l, f x = g x) : l.flatMap f = l.flatMap g := by
  induction l with
  | nil => rfl
  | cons hd tl ih =>
    rw [List.flatMap_cons, List.flatMap_cons, h hd (List.mem_cons_self _ _),
      ih (fun x hx => h x (List.mem_cons_of_mem _ hx))]

theorem flatMap_if_filter {α : Type} (p : α → Bool) (l : List α) :
    l.flatMap (fun x => if p x then [] else [x]) =
      l.filter (fun x => !(p x)) := by
  induction l with
  | nil => rfl
  | cons hd tl ih =>
    rw [List.flatMap_cons, List.filter_cons, ih]
    cases hp : p hd <;> simp [hp]

theorem flatMap_mergeG_eq_spec (p : String → Bool) :
    ∀ (l : List String) (first : String) (others : List String)
      (merged : String), l.Nodup → l.filter p = first :: others →
      l.flatMap (mergeG others first merged) = specMergeRewrite p l merged := by
  intro l
  induction l with
  | nil =>
    intro first others merged _ hf
    exact absurd hf (by simp)
  | cons d rest ih =>
    intro first others merged hnd hf
    rw [List.flatMap_cons]
    cases hp : p d with
    | true =>
      simp only [List.filter_cons, hp, if_true] at hf
      injection hf with h1 h2
      subst h1
      subst h2
      have hd_not : d ∉ rest.filter p :=
        fun hmem => (List.nodup_cons.mp hnd).1 (List.mem_of_mem_filter hmem)
      have hhead : mergeG (rest.filter p) d merged d = [merged] := by
        unfold mergeG
        rw [if_neg hd_not, if_pos rfl]
      have htail : rest.flatMap (mergeG (rest.filter p) d merged) =
          rest.filter (fun x => !(p x)) := by
        rw [flatMap_congr_mem (g := fun x => if p x then [] else [x]) ?_,
          flatMap_if_filter]
        intro x hx
        unfold mergeG
        by_cases hxp : p x = true
        · rw [if_pos (List.mem_filter.mpr ⟨hx, hxp⟩)]
          simp [hxp]
        · have hx1 : x ∉ rest.filter p :=
            fun hmem => hxp (List.of_mem_filter hmem)
          have hx2 : x ≠ d :=
            fun heq => (List.nodup_cons.mp hnd).1 (heq ▸ hx)
          rw [if_neg hx1, if_neg hx2]
          simp [hxp]
      rw [hhead, htail]
      simp [specMergeRewrite, hp]
    | false =>
      simp only [List.filter_cons, hp, Bool.false_eq_true, if_false] at hf
      have hfirst_mesh : p first = true :=
        List.of_mem_filter (l := rest) (by rw [hf]; exact List.mem_cons_self _ _)
      have hd_ne : d ≠ first := by
        intro heq
        rw [heq, hfirst_mesh] at hp
        exact Bool.noConfusion hp
      have hd_not : d ∉ others := by
        intro hmem
        have hdf : d ∈ rest.filter p := by
          rw [hf]
          exact List.mem_cons_of_mem _ hmem
        have := List.of_mem_filter hdf
        rw [hp] at this
        exact Bool.noConfusion this
      have hhead : mergeG others first merged d = [d] := by
        unfold mergeG
        rw [if_neg hd_not, if_neg hd_ne]
      rw [hhead, ih first others merged (List.nodup_cons.mp hnd).2 hf]
      simp [specMergeRewrite, hp]

theorem joinObjects_objs (s : Scene) (names : List String) (active : String) :
    (joinObjects s names active).objs =
      s.objs.filter (fun o => o.name ∉ names ∨ o.name = active) := by
  unfold joinObjects
  dsimp only
  cases lookupObj s active with
  | none => rfl
  | some o =>
    dsimp only
    cases o.dataRef with
    | none => rfl
    | some r => rfl

theorem sceneNames_joinObjects_subset (s : Scene) (names : List String)
    (active : String) :
    ∀ x ∈ sceneNames (joinObjects s names active), x ∈ sceneNames s := by
  intro x hx
  unfold sceneNames at hx ⊢
  rw [joinObjects_objs] at hx
  obtain ⟨o, ho, hname⟩ := List.mem_map.mp hx
  exact hname ▸ List.mem_map_of_mem _ (List.mem_of_mem_filter ho)

theorem renameObject_fresh_base (s : Scene) (old base : String)
    (hb : base ∉ sceneNames s) : (renameObject s old base).2 = base := by
  unfold renameObject
  dsimp only
  unfold freshName
  rw [contains_false_of_not_mem (fun hm => hb (List.mem_of_mem_filter hm)),
    if_neg Bool.false_ne_true]

theorem combineStep_list (s : Scene) (dups : List String) (base : String)
    (hnd : dups.Nodup) {first : String} {others : List String}
    (hf : dups.filter (isMeshName s) = first :: others) :
    (combineStep s dups base).2 =
      specMergeRewrite (isMeshName s) dups
        (renameObject (joinObjects s (first :: others) first) first base).2 := by
  unfold combineStep
  rw [hf]
  dsimp only
  rw [rewrite_foldl_eq, List.nil_append]
  exact flatMap_mergeG_eq_spec (isMeshName s) dups first others _ hnd hf

/-! ## The export invariant at the operator level -/

theorem exInv_exportExecute (inp : ExportInput) (scene : Scene)
    (sel : List String) (hwf : Scene.WF scene) :
    ExInv scene (exportExecute inp scene sel).scene := by
  unfold exportExecute
  cases h1 : (inp.fileExistsAtDest && inp.removeFails) with
  | true => exact exInv_refl scene
  | false =>
    cases h2 : sel.isEmpty with
    | true => exact exInv_refl scene
    | false =>
      have hd := exInv_duplicateAll scene hwf sel inp.apply_modifiers
      cases h3 : inp.combine_meshes with
      | true =>
        cases h4 : inp.encodeFails with
        | true => exact (exInv_combineStep hd.1 hwf _ _ hd.2).1
        | false =>
          cases h5 : inp.moveFails with
          | true => exact (exInv_combineStep hd.1 hwf _ _ hd.2).1
          | false =>
            exact exInv_removeFold _ (exInv_combineStep hd.1 hwf _ _ hd.2).2 _
              (exInv_combineStep hd.1 hwf _ _ hd.2).1
      | false =>
        cases h4 : inp.encodeFails with
        | true => exact hd.1
        | false =>
          cases h5 : inp.moveFails with
          | true => exact hd.1
          | false => exact exInv_removeFold _ hd.2 _ hd.1

/-! ## Claim C2 -/

/-- Claim C2: every object present at export start — in particular every
object of the caller's selection — is still present, with an identical
record and identical data-block content, when the export returns, on every
path (success, failed removal, failed encode, failed move): duplication
copies the object and its data block, and baking, joining, renaming and
deletion only ever touch the fresh duplicates. -/
theorem export_preserves_originals (inp : ExportInput) (scene : Scene)
    (sel : List String) (hwf : Scene.WF scene) :
    ∀ nm ∈ sceneNames scene,
      lookupObj (exportExecute inp scene sel).scene nm = lookupObj scene nm ∧
      (lookupObj scene nm).isSome = true ∧
      dataValOf (exportExecute inp scene sel).scene nm = dataValOf scene nm := by
  intro nm hm
  have hinv := exInv_exportExecute inp scene sel hwf
  exact ⟨hinv.lookup_eq hm, find?_name_isSome hm, hinv.dataValOf_eq hwf hm⟩

/-- Witness for C2 on the single-mesh scene with a full successful export
over an existing destination. -/
theorem export_preserves_originals_witness :
    lookupObj (exportExecute expOK cubeScene ["Cube"]).scene "Cube" =
      lookupObj cubeScene "Cube" ∧
    (lookupObj cubeScene "Cube").isSome = true ∧
    dataValOf (exportExecute expOK cubeScene ["Cube"]).scene "Cube" =
      dataValOf cubeScene "Cube" :=
  export_preserves_originals expOK cubeScene ["Cube"]
    ⟨by decide, by decide⟩ "Cube" (by decide)

/-! ## Claim C10 -/

/-- Claim C10: an existing destination file is deleted before any staging
happens; when the final move of the staged archive then fails, the
operation cancels without restoring it — the destination path ends with no
file where one existed before. -/
theorem dest_removed_not_restored (inp : ExportInput) (scene : Scene)
    (sel : List String) (hex : inp.fileExistsAtDest = true)
    (hrm : inp.removeFails = false) (hsel : sel.isEmpty = false)
    (henc : inp.encodeFails = false) (hmv : inp.moveFails = true) :
    (exportExecute inp scene sel).result = .CANCELLED ∧
    (exportExecute inp scene sel).dest = .absent := by
  unfold exportExecute
  rw [hex, hrm, hsel, henc, hmv]
  simp

/-- Witness for C10. -/
theorem dest_removed_not_restored_witness :
    (exportExecute expReplaceFail cubeScene ["Cube"]).result = .CANCELLED ∧
    (exportExecute expReplaceFail cubeScene ["Cube"]).dest = .absent :=
  dest_removed_not_restored expReplaceFail cubeScene ["Cube"]
    rfl rfl rfl rfl rfl

/-! ## Claim C1 -/

/-- Claim C1 (code bug): the staged-duplicate cleanup is NOT unconditional.
When `shutil.move` fails, `execute` returns CANCELLED at line 417 before
the cleanup loop of lines 422-424, and when the glTF encode raises at line
367 the exception propagates past it — in both cases the staged duplicate
(here merged and renamed to the export's base name) is still in the scene
when the operation returns. -/
theorem staged_duplicates_survive_failed_export :
    (exportExecute expMoveFail cubeScene ["Cube"]).result = .CANCELLED ∧
    "out" ∈ sceneNames (exportExecute expMoveFail cubeScene ["Cube"]).scene ∧
    "out" ∉ sceneNames cubeScene ∧
    (exportExecute expEncodeFail cubeScene ["Cube"]).result = .raised ∧
    "model" ∈ sceneNames (exportExecute expEncodeFail cubeScene ["Cube"]).scene := by
  decide

/-! ## Claim C6 -/

/-- Claim C6: with combine-meshes on and at least one mesh duplicate, the
tracked duplicate-name list is rewritten to the merged name (the export's
base file name) in place of the first mesh, with the other meshes dropped
and the non-mesh names kept in their original relative order; concretely,
three exported meshes leave a tracked list `["model"]` and two meshes plus
one non-mesh leave `["model", "L.001"]`, the merged survivor being present
in the scene and the consumed duplicates gone. -/
theorem merge_bookkeeping (s : Scene) (dups : List String) (base : String)
    (first : String) (others : List String) (hnd : dups.Nodup)
    (hf : dups.filter (isMeshName s) = first :: others)
    (hb : base ∉ sceneNames s) :
    (combineStep s dups base).2 = specMergeRewrite (isMeshName s) dups base ∧
    (exportExecute expEncodeFail threeMeshScene ["A", "B", "C"]).dupNames =
      ["model"] ∧
    (exportExecute expEncodeFail mixedScene ["A", "B", "L"]).dupNames =
      ["model", "L.001"] ∧
    "model" ∈ sceneNames
      (exportExecute expEncodeFail threeMeshScene ["A", "B", "C"]).scene ∧
    "B.001" ∉ sceneNames
      (exportExecute expEncodeFail threeMeshScene ["A", "B", "C"]).scene := by
  refine ⟨?_, by decide, by decide, by decide, by decide⟩
  have hb2 : base ∉ sceneNames (joinObjects s (first :: others) first) :=
    fun hm => hb (sceneNames_joinObjects_subset s (first :: others) first base hm)
  rw [combineStep_list s dups base hnd hf, renameObject_fresh_base _ _ _ hb2]

/-- Witness for C6 on the duplicated three-mesh scene. -/
theorem merge_bookkeeping_witness :
    (combineStep dupSceneA ["A.001", "B.001", "C.001"] "model").2 =
      specMergeRewrite (isMeshName dupSceneA) ["A.001", "B.001", "C.001"]
        "model" :=
  (merge_bookkeeping dupSceneA ["A.001", "B.001", "C.001"] "model"
    "A.001" ["B.001", "C.001"] (by decide) (by decide) (by decide)).1

end NX3
